import Mathlib

/-!
Verification of the KAITO RAG engine's retrieval core against its
natural-language specification.

The Lean definitions below are shallow embeddings of the Python sources:

* `HybridRetriever`       — presets/ragengine/vector_store/retriever/hybrid_retriever.py
* `ContextSelection`      — presets/ragengine/vector_store/node_processors/contex_selection_node_processor.py
* `BaseStore`             — presets/ragengine/vector_store/base.py
* `FaissMap`              — presets/ragengine/vector_store/faiss_map_store.py
* `QdrantStore`           — presets/ragengine/vector_store/qdrant_store.py
* `Api`                   — presets/ragengine/models.py (QueryRequest validation)

Python floats are modelled as exact rationals (`ℚ`), Python ints as `ℤ`/`ℕ`,
Python insertion-ordered dicts as association lists, and fallible code as
`Except`.  `list.sort` (a stable sort) is modelled with `List.insertionSort`,
which is also stable.
-/

/-! ## Association-list helpers (Python `dict` semantics)

Python dicts preserve insertion order; assigning to an existing key updates
the value in place (keeping the key's position), assigning to a fresh key
appends.  Lookups return the stored value.
-/

namespace PyDict

/-- Lookup in an insertion-ordered dict modelled as an association list. -/
def lookup {β : Type} (m : List (String × β)) (k : String) : Option β :=
  (m.find? (fun p => p.1 = k)).map (fun p => p.2)

/-- `d[k] = v` on a Python dict: update in place if present (keeping the
key's position), else append. -/
def set {β : Type} : List (String × β) → String → β → List (String × β)
  | [], k, v => [(k, v)]
  | p :: t, k, v => if p.1 = k then (k, v) :: t else p :: set t k v

/-- `del d[k]` on a Python dict. -/
def erase {β : Type} (m : List (String × β)) (k : String) : List (String × β) :=
  m.filter (fun p => ¬ p.1 = k)

/-- The keys of the dict, in order. -/
def keys {β : Type} (m : List (String × β)) : List String := m.map Prod.fst

end PyDict

/-! ## HybridRetriever (hybrid_retriever.py)

`_retrieve` takes the two candidate pools returned by the vector pass and the
keyword (BM25) pass — their retrieval is an external call, so the pools are
inputs of the model — and fuses them.  A vector-pass result carries the raw
similarity score (`Optional[float]`, `None` collapsed to `0.0` when the score
dict is built, line 97); a keyword-pass result contributes only its node id
and its 0-based position.
-/

namespace HybridRetriever

/-- `vector_scores = {n.node.node_id: n.score if n.score is not None else 0.0
for n in vector_nodes}` (line 97).  Later dict entries overwrite earlier ones,
so a duplicated node id keeps the score of its last occurrence. -/
def vectorScores (vectorNodes : List (String × Option ℚ)) (nodeId : String) :
    Option ℚ :=
  (PyDict.lookup (vectorNodes.reverse.map (fun n => (n.1, n.2.getD 0))) nodeId)

/-- `keyword_ranks = {n.node.node_id: idx for idx, n in enumerate(keyword_nodes)}`
(line 101).  Later entries overwrite earlier ones, so a duplicated node id
keeps the rank of its last occurrence. -/
def keywordRank (keywordNodes : List String) (nodeId : String) : Option ℕ :=
  ((keywordNodes.enum.reverse).find? (fun p => p.2 = nodeId)).map (fun p => p.1)

/-- `text_score = 1.0 / (1.0 + max(0, keyword_rank))` when ranked, else `0.0`
(lines 124–128). -/
def textScore (keywordNodes : List String) (nodeId : String) : ℚ :=
  match keywordRank keywordNodes nodeId with
  | some r => 1 / (1 + max 0 (r : ℚ))
  | none => 0

/-- The vector score used in the fusion: the dict value, or `0.0` for a node
absent from the vector pass (`vector_scores.get(node_id, 0.0)`, line 117). -/
def vectorScore (vectorNodes : List (String × Option ℚ)) (nodeId : String) : ℚ :=
  (vectorScores vectorNodes nodeId).getD 0

/-- `all_node_ids = set(vector_scores.keys()).union(set(keyword_ranks.keys()))`
(line 104).  Python set iteration order is unspecified; the model fixes one
enumeration of the unique ids. -/
def allNodeIds (vectorNodes : List (String × Option ℚ))
    (keywordNodes : List String) : List String :=
  (vectorNodes.map Prod.fst ++ keywordNodes).dedup

/-- `final_score = (vector_weight * vector_score) + (text_weight * text_score)`
(line 131) with the weights already normalized in `__init__` (lines 52–55):
`vector_weight / total_weight` and `text_weight / total_weight`. -/
def finalScore (vectorWeight textWeight : ℚ)
    (vectorNodes : List (String × Option ℚ)) (keywordNodes : List String)
    (nodeId : String) : ℚ :=
  let totalWeight := vectorWeight + textWeight
  (vectorWeight / totalWeight) * vectorScore vectorNodes nodeId
    + (textWeight / totalWeight) * textScore keywordNodes nodeId

/-- `HybridRetriever._retrieve`, lines 96–140: score every unique node id from
either pass, sort descending by final score (`scored_nodes.sort(...,
reverse=True)`), and truncate to `max_results`. -/
def retrieve (vectorWeight textWeight : ℚ) (maxResults : ℕ)
    (vectorNodes : List (String × Option ℚ)) (keywordNodes : List String) :
    List (String × ℚ) :=
  let scored := (allNodeIds vectorNodes keywordNodes).map
    (fun nodeId =>
      (nodeId, finalScore vectorWeight textWeight vectorNodes keywordNodes nodeId))
  (scored.insertionSort (fun a b => b.2 ≤ a.2)).take maxResults

end HybridRetriever

/-! ## ContextSelectionProcessor (contex_selection_node_processor.py)

`_postprocess_nodes` re-ranks the candidate nodes by ascending score (FAISS
scores are distances, so smaller is more relevant) and then walks the ranked
list, keeping each node whose approximate token cost fits the remaining
budget.  Scores are modelled as present rationals: `x.score or 0.0` is the
identity on a present score, and the similarity-threshold comparison
`node.score > threshold` is only well-defined on a present score.
-/

namespace ContextSelection

/-- `ADDITION_PROMPT_TOKENS = 150` (line 22). -/
def ADDITION_PROMPT_TOKENS : ℤ := 150

/-- `DEFAULT_RESPONSE_TOKEN_BUFFER = 1000` (line 23), the `__init__` default
for `response_token_buffer`. -/
def DEFAULT_RESPONSE_TOKEN_BUFFER : ℤ := 1000

/-- One `NodeWithScore` as the processor sees it: its (distance) score and the
length of `node.get_text()`. -/
structure CSNode where
  score : ℚ
  textLen : ℕ
deriving DecidableEq, Repr

/-- `int(len(text) / 3) if text else 0` (line 96): the token approximation of
a node's text.  For the empty text both branches give `0`, and for non-empty
text truncating float division of a non-negative int is `Nat` division. -/
def nodeTokenApproximation (n : CSNode) : ℤ := (n.textLen / 3 : ℕ)

/-- `self._similarity_threshold is not None and node.score >
self._similarity_threshold` (line 93). -/
def aboveThreshold (threshold : Option ℚ) (n : CSNode) : Bool :=
  match threshold with
  | some t => t < n.score
  | none => false

/-- The selection walk of lines 90–101: skip a node above the similarity
threshold, skip a node whose own token cost exceeds the remaining budget (the
walk continues), otherwise keep it and shrink the budget. -/
def selectLoop (threshold : Option ℚ) : ℤ → List CSNode → List CSNode
  | _, [] => []
  | available, n :: rest =>
    if aboveThreshold threshold n then
      selectLoop threshold available rest
    else if nodeTokenApproximation n > available then
      selectLoop threshold available rest
    else
      n :: selectLoop threshold (available - nodeTokenApproximation n) rest

/-- `int(len(query_str) / 3) if query_str else 0` (line 76). -/
def queryTokenApproximation (query : String) : ℤ :=
  if query = "" then 0 else (query.length / 3 : ℕ)

/-- The token budget computed on lines 78–82:
`context_window - query_tokens - ADDITION_PROMPT_TOKENS - min(max_tokens,
response_token_buffer)`. -/
def availableTokensForContext (contextWindow maxTokens responseTokenBuffer : ℤ)
    (query : String) : ℤ :=
  contextWindow - queryTokenApproximation query - ADDITION_PROMPT_TOKENS
    - min maxTokens responseTokenBuffer

/-- `ContextSelectionProcessor._postprocess_nodes` (lines 66–103): empty input
returns empty; a non-positive budget returns empty (line 84); otherwise the
nodes are sorted ascending by score (line 88, `sorted` is stable and so is
`insertionSort`) and walked by `selectLoop`. -/
def postprocessNodes (contextWindow maxTokens responseTokenBuffer : ℤ)
    (threshold : Option ℚ) (query : String) (nodes : List CSNode) :
    List CSNode :=
  if nodes = [] then []
  else
    let available :=
      availableTokensForContext contextWindow maxTokens responseTokenBuffer query
    if available ≤ 0 then []
    else selectLoop threshold available
      (nodes.insertionSort (fun a b => a.score ≤ b.score))

end ContextSelection

/-! ## SHA-256 (`hashlib.sha256(text.encode('utf-8')).hexdigest()`)

An executable SHA-256 over the UTF-8 bytes of a string, used by
`BaseVectorStore.generate_doc_id` (base.py lines 37–40).  32-bit words are
`ℕ` reduced mod `2 ^ 32`.
-/

namespace Sha256

/-- Truncate to a 32-bit word. -/
def w32 (x : ℕ) : ℕ := x % 4294967296

/-- Right rotation of a 32-bit word. -/
def rotr (n x : ℕ) : ℕ := w32 ((x >>> n) ||| (x <<< (32 - n)))

/-- The 64 round constants (FIPS 180-4), written in decimal. -/
def K : List ℕ :=
  [1116352408, 1899447441, 3049323471, 3921009573, 961987163, 1508970993,
   2453635748, 2870763221, 3624381080, 310598401, 607225278, 1426881987,
   1925078388, 2162078206, 2614888103, 3248222580, 3835390401, 4022224774,
   264347078, 604807628, 770255983, 1249150122, 1555081692, 1996064986,
   2554220882, 2821834349, 2952996808, 3210313671, 3336571891, 3584528711,
   113926993, 338241895, 666307205, 773529912, 1294757372, 1396182291,
   1695183700, 1986661051, 2177026350, 2456956037, 2730485921, 2820302411,
   3259730800, 3345764771, 3516065817, 3600352804, 4094571909, 275423344,
   430227734, 506948616, 659060556, 883997877, 958139571, 1322822218,
   1537002063, 1747873779, 1955562222, 2024104815, 2227730452, 2361852424,
   2428436474, 2756734187, 3204031479, 3329325298]

/-- The initial hash state (FIPS 180-4), written in decimal. -/
def H0 : List ℕ :=
  [1779033703, 3144134277, 1013904242, 2773480762,
   1359893119, 2600822924, 528734635, 1541459225]

/-- Big-endian bytes of an 8-byte (64-bit) length field. -/
def lenBytes (bitLen : ℕ) : List ℕ :=
  (List.range 8).map (fun i => (bitLen >>> (8 * (7 - i))) % 256)

/-- SHA-256 padding: append `0x80`, zero bytes to 56 mod 64, then the bit
length as 8 big-endian bytes. -/
def pad (msg : List ℕ) : List ℕ :=
  msg ++ [0x80] ++ List.replicate ((119 - msg.length % 64) % 64) 0
    ++ lenBytes (8 * msg.length)

/-- Split a byte list into 64-byte blocks. -/
def chunks (l : List ℕ) : List (List ℕ) :=
  if h : l = [] then [] else l.take 64 :: chunks (l.drop 64)
termination_by l.length
decreasing_by
  simp only [List.length_drop]
  have hl : 0 < l.length := List.length_pos.mpr h
  omega

/-- Assemble 4 big-endian bytes into one 32-bit word, for a whole block. -/
def toWords (block : List ℕ) : List ℕ :=
  (List.range 16).map (fun i =>
    (block.getD (4 * i) 0) <<< 24 ||| (block.getD (4 * i + 1) 0) <<< 16 |||
    (block.getD (4 * i + 2) 0) <<< 8 ||| block.getD (4 * i + 3) 0)

/-- Small sigma 0. -/
def s0 (x : ℕ) : ℕ := rotr 7 x ^^^ rotr 18 x ^^^ (x >>> 3)

/-- Small sigma 1. -/
def s1 (x : ℕ) : ℕ := rotr 17 x ^^^ rotr 19 x ^^^ (x >>> 10)

/-- Extend the 16-word message schedule by `fuel` further words. -/
def extend : ℕ → List ℕ → List ℕ
  | 0, w => w
  | fuel + 1, w =>
    let l := w.length
    extend fuel (w ++ [w32 (s1 (w.getD (l - 2) 0) + w.getD (l - 7) 0
      + s0 (w.getD (l - 15) 0) + w.getD (l - 16) 0)])

/-- Big sigma 0. -/
def S0 (x : ℕ) : ℕ := rotr 2 x ^^^ rotr 13 x ^^^ rotr 22 x

/-- Big sigma 1. -/
def S1 (x : ℕ) : ℕ := rotr 6 x ^^^ rotr 11 x ^^^ rotr 25 x

/-- Choice function. -/
def ch (x y z : ℕ) : ℕ := (x &&& y) ^^^ (((2 ^ 32 - 1) - x) &&& z)

/-- Majority function. -/
def maj (x y z : ℕ) : ℕ := (x &&& y) ^^^ (x &&& z) ^^^ (y &&& z)

/-- One compression round on the 8-word working state. -/
def round (st : List ℕ) (kw : ℕ × ℕ) : List ℕ :=
  match st with
  | [a, b, c, d, e, f, g, h] =>
    let t1 := w32 (h + S1 e + ch e f g + kw.1 + kw.2)
    let t2 := w32 (S0 a + maj a b c)
    [w32 (t1 + t2), a, b, c, w32 (d + t1), e, f, g]
  | st => st

/-- Compress one 64-byte block into the hash state. -/
def compress (h : List ℕ) (block : List ℕ) : List ℕ :=
  let w := extend 48 (toWords block)
  let out := (K.zip w).foldl round h
  (h.zip out).map (fun p => w32 (p.1 + p.2))

/-- SHA-256 digest of a byte list, as 32 bytes. -/
def digest (msg : List ℕ) : List ℕ :=
  let final := (chunks (pad msg)).foldl compress H0
  final.flatMap (fun wd => [wd >>> 24 % 256, wd >>> 16 % 256,
    wd >>> 8 % 256, wd % 256])

/-- The lowercase hex digit of a value below 16: `0`-`9` then `a`-`f`. -/
def hexChar (b : ℕ) : Char :=
  Char.ofNat (if b < 10 then 48 + b else 87 + b)

/-- Lowercase hex encoding of a byte list (`hexdigest`). -/
def toHex (bytes : List ℕ) : String :=
  String.mk (bytes.flatMap (fun b => [hexChar (b / 16 % 16), hexChar (b % 16)]))

/-- `hashlib.sha256(s.encode('utf-8')).hexdigest()`. -/
def hexOfString (s : String) : String :=
  toHex (digest (s.toUTF8.toList.map (fun b => b.toNat)))

end Sha256

/-! ## BaseVectorStore (base.py)

The per-index document store is the llama-index docstore: an
insertion-ordered map from doc id to the stored document.  `index_map` maps
index names to their docstores.  The embedding/vector side of an insert is an
external call and does not affect the docstore bookkeeping modelled here.
`asyncio.gather` over `handle_document` coroutines is modelled sequentially:
the awaited in-memory docstore accessors complete without yielding to the
event loop, so the batch runs in list order.  The llama-index content hash of
a stored document is computed by the external library and is orthogonal to
every claim, so `DocumentResponse.hash_value` is not modelled.
-/

namespace BaseStore

/-- A caller-supplied document (models.py lines 9–11). -/
structure Document where
  text : String
  metadata : List (String × String)
deriving DecidableEq, Repr

/-- A document as recorded in an index's docstore. -/
structure StoredDocument where
  text : String
  metadata : List (String × String)
deriving DecidableEq, Repr

/-- One index's docstore: insertion-ordered doc id to stored document. -/
abbrev Docstore : Type := List (String × StoredDocument)

/-- The whole store: `self.index_map` (base.py line 33). -/
structure VectorStoreState where
  indexMap : List (String × Docstore)
deriving DecidableEq

/-- `BaseVectorStore.generate_doc_id` (base.py lines 37–40):
`hashlib.sha256(text.encode('utf-8')).hexdigest()`. -/
def generate_doc_id (text : String) : String := Sha256.hexOfString text

/-- `_append_documents_to_index` (base.py lines 49–68): for each document,
hash its text; if the docstore has no entry for that id, insert the document
and record the id as newly indexed, otherwise skip.  Returns the newly
indexed ids and the updated docstore. -/
def appendDocumentsToDocstore (ds : Docstore) (docs : List Document) :
    List String × Docstore :=
  docs.foldl
    (fun acc doc =>
      let docId := generate_doc_id doc.text
      match PyDict.lookup acc.2 docId with
      | some _ => acc
      | none => (acc.1 ++ [docId], acc.2 ++ [(docId, ⟨doc.text, doc.metadata⟩)]))
    ([], ds)

/-- `_create_index_common` (base.py lines 75–99): build one `LlamaDocument`
per input keyed by the content hash (a duplicated id keeps the last payload,
as in the docstore's `allow_update` insert), collecting the set of unique
ids. -/
def createDocstore (docs : List Document) : List String × Docstore :=
  docs.foldl
    (fun acc doc =>
      let docId := generate_doc_id doc.text
      ((if docId ∈ acc.1 then acc.1 else acc.1 ++ [docId]),
        PyDict.set acc.2 docId ⟨doc.text, doc.metadata⟩))
    ([], [])

/-- `index_documents` (base.py lines 42–47): append to an existing index, or
create a new one.  `_create_index_common` registers the new index only when
the document list is non-empty (`if llama_docs:`, line 87). -/
def indexDocuments (st : VectorStoreState) (indexName : String)
    (docs : List Document) : List String × VectorStoreState :=
  match PyDict.lookup st.indexMap indexName with
  | some ds =>
    let r := appendDocumentsToDocstore ds docs
    (r.1, ⟨PyDict.set st.indexMap indexName r.2⟩)
  | none =>
    let r := createDocstore docs
    if docs = [] then (r.1, st)
    else (r.1, ⟨st.indexMap ++ [(indexName, r.2)]⟩)

/-- The page item returned to callers (models.py lines 13–18, minus the
external content hash). -/
structure DocumentResponse where
  docId : String
  text : String
  metadata : List (String × String)
  isTruncated : Bool
deriving DecidableEq, Repr

/-- The successful branch of `_process_document` (base.py lines 175–199) for
an integer `max_text_length`: truncate only the returned view.
`is_truncated = max_text_length and len(text) > max_text_length` uses Python
truthiness, so for `max_text_length = 0` it is the falsy int `0`, which the
pydantic `bool` field coerces to `False` (no truncation); for a positive
bound it is the comparison. -/
def processDocumentInt (m : ℕ) (docId : String) (d : StoredDocument) :
    DocumentResponse :=
  let isTr := if m = 0 then false else decide (d.text.length > m)
  ⟨docId, if isTr then d.text.take m else d.text, d.metadata, isTr⟩

/-- `_process_document` (base.py lines 175–199).  When `max_text_length` is
`None` — the default of both listing functions and of the HTTP routes —
`is_truncated = max_text_length and len(text) > max_text_length` evaluates to
`None`, and `DocumentResponse`'s plain `bool` field rejects `None` under
pydantic v2; the `except` on lines 197–199 swallows the `ValidationError`
and returns `None`, so the document is dropped from the listing.  With an
integer bound the document is returned, truncated only in the view. -/
def processDocument (maxTextLength : Option ℕ) (docId : String)
    (d : StoredDocument) : Option DocumentResponse :=
  match maxTextLength with
  | none => none
  | some m => some (processDocumentInt m docId d)

/-- `list_documents_in_index` (base.py lines 201–224):
`islice(doc_store.docs.items(), offset, offset + limit)` over the docstore's
insertion order, each item formatted by `_process_document`; the
`if isinstance(doc, DocumentResponse)` filter on line 224 drops every
document whose processing returned `None`. -/
def listDocumentsInIndex (st : VectorStoreState) (indexName : String)
    (limit offset : ℕ) (maxTextLength : Option ℕ) :
    Except String (List (String × DocumentResponse)) :=
  match PyDict.lookup st.indexMap indexName with
  | none => .error ("Index '" ++ indexName ++ "' not found.")
  | some ds =>
    .ok (((ds.drop offset).take limit).filterMap
      (fun p => (processDocument maxTextLength p.1 p.2).map (fun r => (p.1, r))))

/-- The body of the `for idx, index_name in enumerate(index_names)` loop of
`list_all_documents` (base.py lines 248–276), carrying the remaining global
`limit`: break once it is non-positive; give index `idx` the slice
`[index_offset, index_offset + index_limit)` of its docstore, keeping only
the documents `_process_document` returned (`isinstance` filter, line 272);
emit the entry only when that list is non-empty (`if valid_docs:`);
decrement the remaining limit by the number of documents emitted. -/
def listAllLoop (st : VectorStoreState) (maxTextLength : Option ℕ)
    (docsPerIndex remainder offsetPerIndex offsetRemainder : ℕ) :
    List (ℕ × String) → ℤ → List (String × List DocumentResponse)
  | [], _ => []
  | (idx, name) :: rest, limRemaining =>
    if limRemaining ≤ 0 then []
    else
      let indexLimit := docsPerIndex + (if idx < remainder then 1 else 0)
      let indexOffset := offsetPerIndex + (if idx < offsetRemainder then 1 else 0)
      if indexLimit = 0 then
        listAllLoop st maxTextLength docsPerIndex remainder offsetPerIndex
          offsetRemainder rest limRemaining
      else
        let ds := (PyDict.lookup st.indexMap name).getD []
        let valid := ((ds.drop indexOffset).take indexLimit).filterMap
          (fun p => processDocument maxTextLength p.1 p.2)
        (if valid = [] then [] else [(name, valid)])
          ++ listAllLoop st maxTextLength docsPerIndex remainder offsetPerIndex
            offsetRemainder rest (limRemaining - valid.length)

/-- `list_all_documents` (base.py lines 226–278): split the global limit into
`limit // n` per index plus one extra for the first `limit % n` indexes
(lines 242–243, 256), split the offset the same way (lines 244–245, 257),
then run the per-index loop. -/
def listAllDocuments (st : VectorStoreState) (limit offset : ℕ)
    (maxTextLength : Option ℕ) : List (String × List DocumentResponse) :=
  let names := PyDict.keys st.indexMap
  if names = [] then []
  else
    listAllLoop st maxTextLength (limit / names.length) (limit % names.length)
      (offset / names.length) (offset % names.length) names.enum (limit : ℤ)

/-- The guard of `BaseVectorStore.query` (base.py lines 123–124): the only
request-level check made by the query path; everything after it is the
external query-engine call.  The query string and `top_k` are passed through
unchecked. -/
def queryGuard (st : VectorStoreState) (indexName : String) (query : String)
    (topK : ℤ) : Except String Unit :=
  if indexName ∈ PyDict.keys st.indexMap then .ok ()
  else .error ("No such index: '" ++ indexName ++ "' exists.")

end BaseStore

/-! ## QueryRequest validation (models.py lines 28–61)

`llm_params` and `rerank_params` are dicts of which the validator inspects
only `llm_params["temperature"]` and `rerank_params["top_n"]`; those two
optional entries are modelled directly (`top_n`, when present, is modelled as
an integer, which is exactly the case in which the `isinstance` check
passes). -/

namespace Api

/-- A query request: `index_name`, `query`, `top_k = 10`, and the two
validator-relevant optional parameters. -/
structure QueryRequest where
  indexName : String
  query : String
  topK : ℤ
  temperature : Option ℚ
  rerankTopN : Option ℤ
deriving DecidableEq, Repr

/-- `"temperature" in llm_params and not (0.0 <= temperature <= 1.0)`
(line 51). -/
def temperatureInvalid (r : QueryRequest) : Bool :=
  match r.temperature with
  | some t => decide (¬ (0 ≤ t ∧ t ≤ 1))
  | none => false

/-- `"top_n" in rerank_params and top_n > top_k` (lines 55–59). -/
def rerankTopNInvalid (r : QueryRequest) : Bool :=
  match r.rerankTopN with
  | some n => decide (n > r.topK)
  | none => false

/-- `QueryRequest.validate_params` (models.py lines 43–61): raise on an
out-of-range temperature or an oversized rerank `top_n`, otherwise accept the
request unchanged. -/
def validateParams (r : QueryRequest) : Except String QueryRequest :=
  if temperatureInvalid r then
    .error "Temperature must be between 0.0 and 1.0."
  else if rerankTopNInvalid r then
    .error "Invalid configuration: top_n cannot exceed top_k."
  else .ok r

end Api

/-! ## FaissVectorMapStore (faiss_map_store.py)

The wrapped engine is `faiss.IndexIDMap(IndexFlatL2)` (faiss_store.py lines
22–26): it stores (id, vector) pairs in insertion order, `ntotal` counts the
stored vectors, `add_with_ids` appends a vector under an explicitly supplied
id (duplicate ids are permitted), and `remove_ids(ids)` removes every stored
vector whose id is in `ids` without renumbering the survivors.  A vector is
identified by the node it embeds.

`ref_doc_id_map: dict = {}` (line 9) is declared at class level, but
`FaissVectorStore` is a pydantic model (`BasePydanticVectorStore`), so the
annotated class attribute is a pydantic field whose mutable default is copied
for each new instance (pydantic v1 and v2 both deep-copy mutable field
defaults); each `FaissVectorMapStore` therefore owns a separate map, one per
index, created fresh by `FaissVectorStoreHandler._create_new_index`.
-/

namespace FaissMap

/-- One chunk node handed to `add`: its source document id (`node.ref_doc_id`)
and a tag standing for its embedding. -/
structure FaissNode where
  refDocId : String
  tag : ℕ
deriving DecidableEq, Repr

/-- The `faiss.IndexIDMap` state: stored (numeric id, vector) pairs. -/
structure FaissIndexIDMap where
  entries : List (ℕ × FaissNode)
deriving DecidableEq, Repr

/-- `ntotal`: the number of stored vectors. -/
def FaissIndexIDMap.ntotal (idx : FaissIndexIDMap) : ℕ := idx.entries.length

/-- `add_with_ids`: append one vector under the supplied id. -/
def FaissIndexIDMap.addWithIds (idx : FaissIndexIDMap) (node : FaissNode)
    (numId : ℕ) : FaissIndexIDMap :=
  ⟨idx.entries ++ [(numId, node)]⟩

/-- `remove_ids`: remove every stored vector whose id is listed; surviving
entries keep their ids. -/
def FaissIndexIDMap.removeIds (idx : FaissIndexIDMap) (ids : List ℕ) :
    FaissIndexIDMap :=
  ⟨idx.entries.filter (fun e => e.1 ∉ ids)⟩

/-- One `FaissVectorMapStore` instance: the wrapped faiss index and this
instance's `ref_doc_id_map`. -/
structure Store where
  faissIndex : FaissIndexIDMap
  refDocIdMap : List (String × ℕ)
deriving DecidableEq, Repr

/-- A freshly constructed instance: an empty faiss index and this instance's
own (pydantic-copied) empty `ref_doc_id_map`. -/
def Store.new : Store := ⟨⟨[]⟩, []⟩

/-- `FaissVectorMapStore.add` (lines 27–48): for each node, read the current
`ntotal`, record `ref_doc_id_map[node.ref_doc_id] = ntotal` (overwriting any
previous entry for that source document), call `add_with_ids(embedding,
ntotal)`, and return the string form of each assigned id. -/
def Store.add (s : Store) (nodes : List FaissNode) : List String × Store :=
  nodes.foldl
    (fun acc node =>
      let s := acc.2
      let nt := s.faissIndex.ntotal
      (acc.1 ++ [toString nt],
        { faissIndex := s.faissIndex.addWithIds node nt,
          refDocIdMap := PyDict.set s.refDocIdMap node.refDocId nt }))
    ([], s)

/-- `FaissVectorMapStore.delete` (lines 50–60): if the map has an entry for
`ref_doc_id`, remove that single numeric id from the faiss index and drop the
map entry; otherwise do nothing. -/
def Store.delete (s : Store) (refDocId : String) : Store :=
  match PyDict.lookup s.refDocIdMap refDocId with
  | some numId =>
    { faissIndex := s.faissIndex.removeIds [numId],
      refDocIdMap := PyDict.erase s.refDocIdMap refDocId }
  | none => s

/-- Two indexes' vector stores, as `FaissVectorStoreHandler` holds them: each
`_create_new_index` call constructs its own `FaissVectorMapStore`. -/
structure TwoIndexStores where
  store1 : Store
  store2 : Store
deriving DecidableEq, Repr

/-- The handler state right after creating two indexes. -/
def TwoIndexStores.init : TwoIndexStores := ⟨Store.new, Store.new⟩

/-- An add performed through the first index's vector store. -/
def TwoIndexStores.addVia1 (st : TwoIndexStores) (nodes : List FaissNode) :
    TwoIndexStores :=
  { st with store1 := (st.store1.add nodes).2 }

/-- A delete performed through the first index's vector store. -/
def TwoIndexStores.deleteVia1 (st : TwoIndexStores) (refDocId : String) :
    TwoIndexStores :=
  { st with store1 := st.store1.delete refDocId }

end FaissMap

/-! ## QdrantVectorStoreHandler startup restoration (qdrant_store.py)

`_restore_indexes_from_qdrant` iterates the discovered collections and calls
`_restore_single_index` on each inside a per-collection `try/except` (lines
129–137).  Everything a restoration does against the network — scrolling the
collection's points, embedding, `VectorStoreIndex.from_documents` — can
raise; the model folds that external failure into a fallible
point-fetching/indexing environment `fetchPoints`, so one collection's
outcome is `fetchPoints` applied to its name, post-processed by the pure
payload-reconstruction logic of `_scroll_collection_to_docs`.

A point payload is modelled by the fields the reconstruction reads:
`ref_doc_id`, `doc_id`, `text`, `_node_content`.  The JSON re-parse branch
(lines 207–216) only runs when `text` and `_node_content` are both falsy and
then either leaves `text` empty or swallows its own decode error, so its net
effect on the reconstructed text is the Python-`or` chain of line 203.
-/

namespace QdrantStore

/-- The payload fields of one scrolled point. -/
structure QPoint where
  refDocId : Option String
  docId : Option String
  text : String
  nodeContent : Option String
deriving DecidableEq, Repr

/-- `ref_doc_id = payload.get("ref_doc_id") or payload.get("doc_id")` (line
202) under Python truthiness, combined with the `if ref_doc_id ...` guard of
line 218: the source-document id of the point, or `none` when both fields are
missing or empty. -/
def pointRefDocId (p : QPoint) : Option String :=
  let raw :=
    match p.refDocId with
    | some s => if s = "" then p.docId else some s
    | none => p.docId
  match raw with
  | some s => if s = "" then none else some s
  | none => none

/-- `text = payload.get("text", "") or payload.get("_node_content", "")`
(line 203). -/
def pointText (p : QPoint) : String :=
  if p.text = "" then (p.nodeContent.getD "") else p.text

/-- A document reconstructed from point payloads. -/
structure LlamaDoc where
  id : String
  text : String
deriving DecidableEq, Repr

/-- The point walk of `_scroll_collection_to_docs` (lines 199–226), carrying
`seen_ref_doc_ids`: a point with a truthy source-document id that has not
been seen yet yields one reconstructed document; every other point is
skipped. -/
def scrollLoop (seen : List String) : List QPoint → List LlamaDoc
  | [] => []
  | p :: rest =>
    match pointRefDocId p with
    | some rid =>
      if rid ∈ seen then scrollLoop seen rest
      else ⟨rid, pointText p⟩ :: scrollLoop (rid :: seen) rest
    | none => scrollLoop seen rest

/-- `_scroll_collection_to_docs` (lines 174–232) over the concatenation of
all scroll pages. -/
def scrollCollectionToDocs (points : List QPoint) : List LlamaDoc :=
  scrollLoop [] points

/-- `_restore_single_index` (lines 141–172): fetch the collection's points
(fallible, external) and reconstruct its documents. -/
def restoreSingleIndex (fetchPoints : String → Except String (List QPoint))
    (collectionName : String) : Except String (List LlamaDoc) :=
  match fetchPoints collectionName with
  | .ok points => .ok (scrollCollectionToDocs points)
  | .error e => .error e

/-- `_restore_indexes_from_qdrant` (lines 106–139): for each discovered
collection, attempt the restore; on success store the restored index under
the collection's name in `index_map`, on failure log and continue with the
remaining collections. -/
def restoreIndexesFromQdrant (fetchPoints : String → Except String (List QPoint)) :
    List String → List (String × List LlamaDoc) → List (String × List LlamaDoc)
  | [], indexMap => indexMap
  | c :: rest, indexMap =>
    restoreIndexesFromQdrant fetchPoints rest
      (match restoreSingleIndex fetchPoints c with
       | .ok docs => PyDict.set indexMap c docs
       | .error _ => indexMap)

end QdrantStore

/-! ## Remaining definitions used by the statements -/

namespace BaseStore

/-- Well-formedness of the store: index names are unique and every docstore
keys each document id at most once.  `index_documents` establishes and
preserves this; it holds of the empty store the handler starts from. -/
def WFState (st : VectorStoreState) : Prop :=
  (PyDict.keys st.indexMap).Nodup ∧
    ∀ p ∈ st.indexMap, (PyDict.keys p.2).Nodup

instance : DecidablePred WFState := fun st => by
  unfold WFState; infer_instance

/-- Stated from the claim's words, for comparison with `listAllDocuments`:
a share of the global limit proportional to each index's document count
(`limit * count / total`), with the remainder distributed to the first
indexes. -/
def claimedProportionalShares (limit : ℕ) (counts : List ℕ) : List ℕ :=
  let total := counts.sum
  if total = 0 then counts.map (fun _ => 0)
  else
    let base := counts.map (fun c => limit * c / total)
    let rem := limit - base.sum
    base.enum.map (fun p => p.2 + if p.1 < rem then 1 else 0)

end BaseStore


/-! # Theorems -/

/-! ## PyDict lemmas -/

theorem PyDict.lookup_nil {β : Type} (k : String) :
    PyDict.lookup ([] : List (String × β)) k = none := rfl

theorem PyDict.lookup_cons {β : Type} (p : String × β) (t : List (String × β))
    (k : String) :
    PyDict.lookup (p :: t) k = if p.1 = k then some p.2 else PyDict.lookup t k := by
  by_cases h : p.1 = k
  · simp [PyDict.lookup, List.find?_cons_of_pos, h]
  · simp [PyDict.lookup, List.find?_cons_of_neg, h]

theorem PyDict.lookup_set_self {β : Type} (m : List (String × β)) (k : String)
    (v : β) : PyDict.lookup (PyDict.set m k v) k = some v := by
  induction m with
  | nil => simp [PyDict.set, PyDict.lookup_cons, PyDict.lookup_nil]
  | cons p t ih =>
    by_cases h : p.1 = k
    · simp [PyDict.set, h, PyDict.lookup_cons]
    · simp [PyDict.set, h, PyDict.lookup_cons, ih]

theorem PyDict.lookup_set_ne {β : Type} (m : List (String × β)) {k k' : String}
    (v : β) (h : k' ≠ k) :
    PyDict.lookup (PyDict.set m k v) k' = PyDict.lookup m k' := by
  induction m with
  | nil => simp [PyDict.set, PyDict.lookup_cons, PyDict.lookup_nil, Ne.symm h]
  | cons p t ih =>
    by_cases hp : p.1 = k
    · simp [PyDict.set, hp, PyDict.lookup_cons, Ne.symm h, hp ▸ Ne.symm h]
    · simp [PyDict.set, hp, PyDict.lookup_cons, ih]

theorem PyDict.set_eq_self {β : Type} {m : List (String × β)} {k : String}
    {v : β} (hnd : (PyDict.keys m).Nodup) (h : PyDict.lookup m k = some v) :
    PyDict.set m k v = m := by
  induction m with
  | nil => simp [PyDict.lookup_nil] at h
  | cons p t ih =>
    rw [PyDict.lookup_cons] at h
    by_cases hp : p.1 = k
    · rw [if_pos hp] at h
      cases p with
      | mk a b =>
        simp only [Option.some.injEq] at h
        simp only at hp
        subst hp
        subst h
        simp [PyDict.set]
    · rw [if_neg hp] at h
      simp only [PyDict.keys, List.map_cons, List.nodup_cons] at hnd
      simp [PyDict.set, hp, ih hnd.2 h]

theorem PyDict.lookup_eq_none_iff {β : Type} (m : List (String × β))
    (k : String) : PyDict.lookup m k = none ↔ k ∉ PyDict.keys m := by
  induction m with
  | nil => simp [PyDict.lookup_nil, PyDict.keys]
  | cons p t ih =>
    rw [PyDict.lookup_cons]
    by_cases hp : p.1 = k
    · simp [hp, PyDict.keys]
    · simp [hp, PyDict.keys, ih]
      intro
      exact fun hk => hp hk.symm

theorem PyDict.lookup_append_self {β : Type} {m : List (String × β)}
    {k : String} (v : β) (h : PyDict.lookup m k = none) :
    PyDict.lookup (m ++ [(k, v)]) k = some v := by
  induction m with
  | nil => simp [PyDict.lookup_cons, PyDict.lookup_nil]
  | cons p t ih =>
    rw [PyDict.lookup_cons] at h
    by_cases hp : p.1 = k
    · simp [hp] at h
    · rw [if_neg hp] at h
      simpa [PyDict.lookup_cons, hp] using ih h

theorem PyDict.lookup_append_ne {β : Type} {m : List (String × β)}
    {k k' : String} (v : β) (h : k' ≠ k) :
    PyDict.lookup (m ++ [(k, v)]) k' = PyDict.lookup m k' := by
  induction m with
  | nil => simp [PyDict.lookup_cons, PyDict.lookup_nil, Ne.symm h]
  | cons p t ih =>
    by_cases hp : p.1 = k'
    · simp [PyDict.lookup_cons, hp]
    · simpa [PyDict.lookup_cons, hp] using ih

theorem PyDict.mem_keys_of_lookup {β : Type} {m : List (String × β)}
    {k : String} {v : β} (h : PyDict.lookup m k = some v) :
    k ∈ PyDict.keys m := by
  by_contra hk
  rw [← PyDict.lookup_eq_none_iff] at hk
  simp [hk] at h

theorem PyDict.keys_append {β : Type} (m : List (String × β)) (k : String)
    (v : β) : PyDict.keys (m ++ [(k, v)]) = PyDict.keys m ++ [k] := by
  simp [PyDict.keys]

theorem PyDict.keys_set {β : Type} (m : List (String × β)) (k : String)
    (v : β) (h : k ∈ PyDict.keys m) :
    PyDict.keys (PyDict.set m k v) = PyDict.keys m := by
  induction m with
  | nil => simp [PyDict.keys] at h
  | cons p t ih =>
    by_cases hp : p.1 = k
    · simp [PyDict.set, hp, PyDict.keys]
    · simp only [PyDict.keys, List.map_cons, List.mem_cons] at h
      rcases h with h | h
      · exact absurd h.symm hp
      · have h2 := ih h
        simp only [PyDict.keys] at h2
        simp [PyDict.set, hp, PyDict.keys, h2]

/-! ## C4 — deletion completeness of the in-process backend -/

/-- C4 (code bug exhibit): deletion by `ref_doc_id` is not complete for a
document whose chunking produced more than one node.  A document `d` indexed
as two chunk nodes stores two vectors, but `ref_doc_id_map` keeps only the
faiss id of the last chunk, so `delete("d")` removes exactly one vector: the
backend's node count drops from 2 to 1, not to 0, and the first chunk's
vector survives as an orphan.  The claim (and the spec's "deleting a Document
must delete all its IndexedNodes") requires the count to drop by 2. -/
theorem FaissMap.delete_multichunk_removes_only_last_vector :
    (FaissMap.Store.new.add [⟨"d", 0⟩, ⟨"d", 1⟩]).2.faissIndex.ntotal = 2 ∧
    PyDict.lookup (FaissMap.Store.new.add
      [⟨"d", 0⟩, ⟨"d", 1⟩]).2.refDocIdMap "d" = some 1 ∧
    ((FaissMap.Store.new.add
      [⟨"d", 0⟩, ⟨"d", 1⟩]).2.delete "d").faissIndex.ntotal = 1 ∧
    ((FaissMap.Store.new.add
      [⟨"d", 0⟩, ⟨"d", 1⟩]).2.delete "d").faissIndex.entries =
      [(0, ⟨"d", 0⟩)] := by
  decide

/-! ## C7 — handle stability of the in-process backend -/

/-- C7 (code bug exhibit): `add` assigns `ntotal` as the new numeric id, so
after a delete shrinks `ntotal`, a new add reuses a surviving vector's
handle.  After `add a; add b; delete a; add c`, document `c` is assigned
handle 1, which is still document `b`'s handle: two live map entries share
one numeric id, `b`'s recorded handle no longer resolves to `b`'s vector
alone, and a subsequent `delete b` removes `c`'s vector too (the backend
drops to 0 vectors while `c` is still live in the map). -/
theorem FaissMap.add_after_delete_reuses_live_handle :
    PyDict.lookup (((((FaissMap.Store.new.add [⟨"a", 0⟩]).2.add
      [⟨"b", 1⟩]).2.delete "a").add [⟨"c", 2⟩]).2.refDocIdMap) "b" = some 1 ∧
    PyDict.lookup (((((FaissMap.Store.new.add [⟨"a", 0⟩]).2.add
      [⟨"b", 1⟩]).2.delete "a").add [⟨"c", 2⟩]).2.refDocIdMap) "c" = some 1 ∧
    ((((FaissMap.Store.new.add [⟨"a", 0⟩]).2.add
      [⟨"b", 1⟩]).2.delete "a").add [⟨"c", 2⟩]).2.faissIndex.entries =
      [(1, ⟨"b", 1⟩), (1, ⟨"c", 2⟩)] ∧
    (((((FaissMap.Store.new.add [⟨"a", 0⟩]).2.add
      [⟨"b", 1⟩]).2.delete "a").add
        [⟨"c", 2⟩]).2.delete "b").faissIndex.ntotal = 0 ∧
    PyDict.lookup (((((FaissMap.Store.new.add [⟨"a", 0⟩]).2.add
      [⟨"b", 1⟩]).2.delete "a").add
        [⟨"c", 2⟩]).2.delete "b").refDocIdMap "c" = some 1 := by
  decide

/-! ## C10 — the id-to-handle map is per instance, not shared -/

/-- C10 counterexample: `ref_doc_id_map` is not shared across
`FaissVectorMapStore` instances.  The class-level declaration is a pydantic
field whose mutable default is copied per instance, so an add through the
first index's store records the handle in that store's own map while the
second index's store still has no entry for the document. -/
theorem FaissMap.map_not_shared_across_instances :
    let st := FaissMap.TwoIndexStores.init.addVia1 [⟨"d", 7⟩]
    PyDict.lookup st.store1.refDocIdMap "d" = some 0 ∧
    PyDict.lookup st.store2.refDocIdMap "d" = none := by
  decide

/-- C10 as amended: each `FaissVectorMapStore` owns a separate
`ref_doc_id_map` (one per index), so an add or a delete performed through one
index's store updates that store alone and leaves every other index's store —
in particular its map — unchanged. -/
theorem FaissMap.per_instance_map_frame (st : FaissMap.TwoIndexStores)
    (nodes : List FaissMap.FaissNode) (refDocId : String) :
    (st.addVia1 nodes).store1 = (st.store1.add nodes).2 ∧
    (st.addVia1 nodes).store2 = st.store2 ∧
    (st.deleteVia1 refDocId).store1 = st.store1.delete refDocId ∧
    (st.deleteVia1 refDocId).store2 = st.store2 :=
  ⟨rfl, rfl, rfl, rfl⟩

/-! ## C8 — an empty query string is not rejected -/

/-- C8 counterexample: a request whose `query` is the empty string passes
`QueryRequest.validate_params` unchanged, and `BaseVectorStore.query` on an
existing index proceeds past its only guard instead of raising an
invalid-request error. -/
theorem Api.empty_query_accepted :
    let req : Api.QueryRequest := ⟨"idx", "", 10, none, none⟩
    let st : BaseStore.VectorStoreState := ⟨[("idx", [])]⟩
    Api.validateParams req = .ok req ∧
    BaseStore.queryGuard st req.indexName req.query req.topK = .ok () := by
  constructor
  · rfl
  · rfl

/-- C8 as amended: request validation is independent of the query string —
replacing the query (by the empty string or any other) never changes the
validation outcome, which depends only on the temperature and rerank `top_n`
checks — and the query path fails exactly when the index name is unknown,
regardless of the query string. -/
theorem Api.validation_ignores_query_string (r : Api.QueryRequest)
    (q : String) (st : BaseStore.VectorStoreState) :
    Api.validateParams { r with query := q } =
      (Api.validateParams r).map (fun x => { x with query := q }) ∧
    (BaseStore.queryGuard st r.indexName q r.topK = .ok () ↔
      r.indexName ∈ PyDict.keys st.indexMap) := by
  constructor
  · have ht : Api.temperatureInvalid { r with query := q } =
        Api.temperatureInvalid r := rfl
    have hn : Api.rerankTopNInvalid { r with query := q } =
        Api.rerankTopNInvalid r := rfl
    unfold Api.validateParams
    rw [ht, hn]
    by_cases h1 : Api.temperatureInvalid r
    · simp [h1, Except.map]
    · by_cases h2 : Api.rerankTopNInvalid r
      · simp [h1, h2, Except.map]
      · simp [h1, h2, Except.map]
  · unfold BaseStore.queryGuard
    by_cases h : r.indexName ∈ PyDict.keys st.indexMap
    · simp [h]
    · simp [h]

/-! ## C6 — cross-index listing splits the limit equally, not proportionally -/

/-- C6 counterexample: with index `a` holding 3 documents and index `b`
holding 1, a `list_all` of limit 4 at the integer `max_text_length = 100`
(large enough that nothing is truncated or dropped) returns 2 documents for
`a` — the equal split `4 // 2` — whereas a share proportional to document
counts (with the remainder to the first indexes) would give `a` 3
documents. -/
theorem BaseStore.listAll_share_not_proportional :
    let st : BaseStore.VectorStoreState :=
      ⟨[("a", [("d1", ⟨"t1", []⟩), ("d2", ⟨"t2", []⟩), ("d3", ⟨"t3", []⟩)]),
        ("b", [("d4", ⟨"t4", []⟩)])]⟩
    (PyDict.lookup (BaseStore.listAllDocuments st 4 0 (some 100)) "a").map
        List.length = some 2 ∧
    BaseStore.claimedProportionalShares 4 [3, 1] = [3, 1] ∧
    (PyDict.lookup (BaseStore.listAllDocuments st 4 0 (some 100)) "a").map
        List.length
        ≠ some ((BaseStore.claimedProportionalShares 4 [3, 1]).headI) := by
  decide

theorem BaseStore.listAllLoop_entry_bound (st : BaseStore.VectorStoreState)
    (maxLen : Option ℕ) (dpi rem opi orem : ℕ) :
    ∀ (pairs : List (ℕ × String)) (lim : ℤ) (name : String)
      (docs : List BaseStore.DocumentResponse),
      (name, docs) ∈
        BaseStore.listAllLoop st maxLen dpi rem opi orem pairs lim →
      docs.length ≤ dpi + 1 := by
  intro pairs
  induction pairs with
  | nil =>
    intro lim name docs h
    simp [BaseStore.listAllLoop] at h
  | cons p rest ih =>
    intro lim name docs h
    obtain ⟨idx, nm⟩ := p
    simp only [BaseStore.listAllLoop] at h
    by_cases hbreak : lim ≤ 0
    · rw [if_pos hbreak] at h
      simp at h
    · rw [if_neg hbreak] at h
      by_cases hzero : dpi + (if idx < rem then 1 else 0) = 0
      · rw [if_pos hzero] at h
        exact ih lim name docs h
      · rw [if_neg hzero] at h
        rcases List.mem_append.mp h with hl | hr
        · by_cases hv :
            ((((PyDict.lookup st.indexMap nm).getD []).drop
                (opi + (if idx < orem then 1 else 0))).take
              (dpi + (if idx < rem then 1 else 0))).filterMap
              (fun q => BaseStore.processDocument maxLen q.1 q.2) = []
          · rw [if_pos hv] at hl
            simp at hl
          · rw [if_neg hv] at hl
            simp only [List.mem_singleton, Prod.mk.injEq] at hl
            obtain ⟨-, hdocs⟩ := hl
            subst hdocs
            calc _ ≤ ((((PyDict.lookup st.indexMap nm).getD []).drop
                  (opi + (if idx < orem then 1 else 0))).take
                (dpi + (if idx < rem then 1 else 0))).length :=
                  List.length_filterMap_le _ _
              _ ≤ dpi + (if idx < rem then 1 else 0) :=
                  List.length_take_le _ _
              _ ≤ dpi + 1 := by
                  by_cases hi : idx < rem <;> simp [hi]
        · exact ih _ name docs hr

theorem BaseStore.listAllLoop_total_bound (st : BaseStore.VectorStoreState)
    (maxLen : Option ℕ) (dpi rem opi orem : ℕ) :
    ∀ (pairs : List (ℕ × String)) (lim : ℤ),
      ((BaseStore.listAllLoop st maxLen dpi rem opi orem pairs lim).map
          (fun p => p.2.length)).sum ≤
        (pairs.map (fun p => dpi + if p.1 < rem then 1 else 0)).sum := by
  intro pairs
  induction pairs with
  | nil => intro lim; simp [BaseStore.listAllLoop]
  | cons p rest ih =>
    intro lim
    obtain ⟨idx, nm⟩ := p
    simp only [BaseStore.listAllLoop]
    by_cases hbreak : lim ≤ 0
    · rw [if_pos hbreak]
      simp
    · rw [if_neg hbreak]
      by_cases hzero : dpi + (if idx < rem then 1 else 0) = 0
      · rw [if_pos hzero]
        calc _ ≤ _ := ih lim
          _ ≤ _ := by simp [List.sum_cons]
      · rw [if_neg hzero]
        by_cases hv :
          ((((PyDict.lookup st.indexMap nm).getD []).drop
              (opi + (if idx < orem then 1 else 0))).take
            (dpi + (if idx < rem then 1 else 0))).filterMap
            (fun q => BaseStore.processDocument maxLen q.1 q.2) = []
        · rw [if_pos hv]
          simp only [List.nil_append, List.map_cons, List.sum_cons]
          calc _ ≤ _ := ih _
            _ ≤ _ := Nat.le_add_left _ _
        · rw [if_neg hv]
          simp only [List.singleton_append, List.map_cons, List.sum_cons]
          refine Nat.add_le_add ?_ (ih _)
          calc _ ≤ ((((PyDict.lookup st.indexMap nm).getD []).drop
                (opi + (if idx < orem then 1 else 0))).take
              (dpi + (if idx < rem then 1 else 0))).length :=
                List.length_filterMap_le _ _
            _ ≤ dpi + (if idx < rem then 1 else 0) :=
                List.length_take_le _ _

theorem BaseStore.sum_range_equal_split (dpi r : ℕ) :
    ∀ n : ℕ, (((List.range n).map (fun i => dpi + if i < r then 1 else 0)).sum)
      = n * dpi + min r n := by
  intro n
  induction n with
  | zero => simp
  | succ n ih =>
    rw [List.range_succ, List.map_append, List.sum_append, ih]
    have hs : (n + 1) * dpi = n * dpi + dpi := by ring
    by_cases h : n < r
    · simp only [List.map_cons, List.map_nil, List.sum_cons, List.sum_nil, h,
        if_pos]
      omega
    · simp only [List.map_cons, List.map_nil, List.sum_cons, List.sum_nil, h,
        if_neg, not_false_iff]
      omega

/-- C6 as amended: `list_all_documents` gives each index an equal share of
the global limit — `limit // num_indexes`, with the `limit % num_indexes`
remainder going to the first indexes — rather than a share proportional to
its document count, so no index's page entry exceeds `limit // num_indexes +
1` documents and the page's total never exceeds the global limit; a single large
index therefore cannot consume the whole page. -/
theorem BaseStore.listAll_equal_share (st : BaseStore.VectorStoreState)
    (limit offset : ℕ) (maxLen : Option ℕ) :
    (∀ name docs,
      (name, docs) ∈ BaseStore.listAllDocuments st limit offset maxLen →
      docs.length ≤ limit / (PyDict.keys st.indexMap).length + 1) ∧
    ((BaseStore.listAllDocuments st limit offset maxLen).map
        (fun p => p.2.length)).sum ≤ limit := by
  unfold BaseStore.listAllDocuments
  by_cases hnil : PyDict.keys st.indexMap = []
  · simp [hnil]
  · rw [if_neg hnil]
    constructor
    · intro name docs h
      exact BaseStore.listAllLoop_entry_bound st maxLen _ _ _ _ _ _ name docs h
    · calc _ ≤ (((PyDict.keys st.indexMap).enum.map
            (fun p => limit / (PyDict.keys st.indexMap).length +
              if p.1 < limit % (PyDict.keys st.indexMap).length
              then 1 else 0)).sum) :=
          BaseStore.listAllLoop_total_bound st maxLen _ _ _ _ _ _
        _ ≤ limit := by
          have hcomp : (((PyDict.keys st.indexMap).enum.map
              (fun p => limit / (PyDict.keys st.indexMap).length +
                if p.1 < limit % (PyDict.keys st.indexMap).length
                then 1 else 0)).sum) =
              (((List.range (PyDict.keys st.indexMap).length).map
              (fun i => limit / (PyDict.keys st.indexMap).length +
                if i < limit % (PyDict.keys st.indexMap).length
                then 1 else 0)).sum) := by
            conv_rhs => rw [← List.enum_map_fst (PyDict.keys st.indexMap)]
            rw [List.map_map]
            rfl
          rw [hcomp, BaseStore.sum_range_equal_split]
          have hn : 0 < (PyDict.keys st.indexMap).length :=
            List.length_pos.mpr hnil
          have hmod : limit % (PyDict.keys st.indexMap).length <
              (PyDict.keys st.indexMap).length := Nat.mod_lt _ hn
          have hdm := Nat.div_add_mod limit (PyDict.keys st.indexMap).length
          have hmin : min (limit % (PyDict.keys st.indexMap).length)
              (PyDict.keys st.indexMap).length =
              limit % (PyDict.keys st.indexMap).length := by omega
          rw [hmin]
          exact le_of_eq hdm

/-! ## C2 — context budget filter -/

theorem ContextSelection.selectLoop_sublist (thr : Option ℚ) :
    ∀ (nodes : List ContextSelection.CSNode) (available : ℤ),
      List.Sublist (ContextSelection.selectLoop thr available nodes) nodes := by
  intro nodes
  induction nodes with
  | nil => intro av; simp [ContextSelection.selectLoop]
  | cons n rest ih =>
    intro av
    simp only [ContextSelection.selectLoop]
    by_cases ht : ContextSelection.aboveThreshold thr n
    · simp only [ht, if_true]
      exact (ih av).cons n
    · simp only [ht, Bool.false_eq_true, if_false]
      by_cases hc : ContextSelection.nodeTokenApproximation n > av
      · simp only [hc, if_true]
        exact (ih av).cons n
      · simp only [hc, if_false]
        exact (ih _).cons₂ n

theorem ContextSelection.nodeTokenApproximation_nonneg
    (n : ContextSelection.CSNode) :
    0 ≤ ContextSelection.nodeTokenApproximation n := by
  unfold ContextSelection.nodeTokenApproximation
  exact Int.natCast_nonneg _

/-- C2: the context budget filter (a) returns the empty list — not an error —
whenever the available budget (context window minus the query-token estimate
minus the fixed 150-token prompt overhead minus the reserved response tokens)
is non-positive; (b) skips a node whose own token cost exceeds the remaining
budget and continues the walk with the later nodes; (c) only keeps nodes that
fit: the total cost of the kept nodes never exceeds the initial budget;
(d) walks the nodes in relevance order: the result is a subsequence of the
input re-ranked by ascending (distance) score, and is itself sorted that way;
and (e) on the spec's concrete instance — context window 1000, 50 query
tokens, overhead 150, reserved 200, candidates each costing 250 tokens —
selects exactly 2 nodes. -/
theorem ContextSelection.postprocess_spec :
    (∀ (cw mt buf : ℤ) (thr : Option ℚ) (q : String)
       (nodes : List ContextSelection.CSNode),
       ContextSelection.availableTokensForContext cw mt buf q ≤ 0 →
       ContextSelection.postprocessNodes cw mt buf thr q nodes = []) ∧
    (∀ (thr : Option ℚ) (available : ℤ) (n : ContextSelection.CSNode)
       (rest : List ContextSelection.CSNode),
       ContextSelection.nodeTokenApproximation n > available →
       ContextSelection.selectLoop thr available (n :: rest) =
         ContextSelection.selectLoop thr available rest) ∧
    (∀ (thr : Option ℚ) (available : ℤ)
       (nodes : List ContextSelection.CSNode), 0 ≤ available →
       ((ContextSelection.selectLoop thr available nodes).map
           ContextSelection.nodeTokenApproximation).sum ≤ available) ∧
    (∀ (cw mt buf : ℤ) (thr : Option ℚ) (q : String)
       (nodes : List ContextSelection.CSNode),
       List.Sublist (ContextSelection.postprocessNodes cw mt buf thr q nodes)
         (nodes.insertionSort (fun a b => a.score ≤ b.score)) ∧
       (ContextSelection.postprocessNodes cw mt buf thr q nodes).Sorted
         (fun a b => a.score ≤ b.score)) ∧
    (ContextSelection.postprocessNodes 1000 200 1000 none
        (String.mk (List.replicate 150 'a'))
        [⟨0, 750⟩, ⟨0, 750⟩, ⟨0, 750⟩]).length = 2 := by
  refine ⟨?_, ?_, ?_, ?_, ?_⟩
  · intro cw mt buf thr q nodes h
    unfold ContextSelection.postprocessNodes
    by_cases hn : nodes = []
    · simp [hn]
    · simp [hn, h]
  · intro thr av n rest h
    simp only [ContextSelection.selectLoop]
    by_cases ht : ContextSelection.aboveThreshold thr n
    · simp [ht]
    · simp [ht, h]
  · intro thr available nodes
    induction nodes generalizing available with
    | nil => intro h; simpa [ContextSelection.selectLoop] using h
    | cons n rest ih =>
      intro h
      simp only [ContextSelection.selectLoop]
      by_cases ht : ContextSelection.aboveThreshold thr n
      · simp only [ht, if_true]
        exact ih available h
      · simp only [ht, Bool.false_eq_true, if_false]
        by_cases hc : ContextSelection.nodeTokenApproximation n > available
        · simp only [hc, if_true]
          exact ih available h
        · simp only [hc, if_false, List.map_cons, List.sum_cons]
          have hnn := ContextSelection.nodeTokenApproximation_nonneg n
          have hle : ContextSelection.nodeTokenApproximation n ≤ available :=
            not_lt.mp hc
          have hrest := ih (available - ContextSelection.nodeTokenApproximation n)
            (by omega)
          omega
  · intro cw mt buf thr q nodes
    have hsub : List.Sublist
        (ContextSelection.postprocessNodes cw mt buf thr q nodes)
        (nodes.insertionSort (fun a b => a.score ≤ b.score)) := by
      unfold ContextSelection.postprocessNodes
      by_cases hn : nodes = []
      · simp [hn]
      · by_cases ha :
          ContextSelection.availableTokensForContext cw mt buf q ≤ 0
        · simp [hn, ha]
        · simp only [hn, ha, if_false]
          exact ContextSelection.selectLoop_sublist thr _ _
    refine ⟨hsub, ?_⟩
    letI : IsTotal ContextSelection.CSNode (fun a b => a.score ≤ b.score) :=
      ⟨fun a b => le_total a.score b.score⟩
    letI : IsTrans ContextSelection.CSNode (fun a b => a.score ≤ b.score) :=
      ⟨fun _ _ _ hab hbc => le_trans hab hbc⟩
    have hp : List.Pairwise
        (fun a b : ContextSelection.CSNode => a.score ≤ b.score)
        (nodes.insertionSort (fun a b => a.score ≤ b.score)) :=
      List.sorted_insertionSort
        (fun a b : ContextSelection.CSNode => a.score ≤ b.score) nodes
    exact List.Pairwise.sublist hsub hp
  · set_option maxRecDepth 10000 in decide

/-- Witness for `ContextSelection.postprocess_spec` at concrete inputs. -/
theorem ContextSelection.postprocess_spec_witness :
    ContextSelection.postprocessNodes 100 200 1000 none "" [⟨0, 750⟩] = [] ∧
    ContextSelection.selectLoop none 100 [⟨0, 750⟩, ⟨0, 30⟩] =
      ContextSelection.selectLoop none 100 [⟨0, 30⟩] ∧
    ((ContextSelection.selectLoop none 600
        [⟨0, 750⟩, ⟨0, 750⟩, ⟨0, 750⟩]).map
      ContextSelection.nodeTokenApproximation).sum ≤ 600 :=
  ⟨ContextSelection.postprocess_spec.1 100 200 1000 none "" [⟨0, 750⟩]
      (by decide),
   ContextSelection.postprocess_spec.2.1 none 100 ⟨0, 750⟩ [⟨0, 30⟩]
      (by decide),
   ContextSelection.postprocess_spec.2.2.1 none 600
      [⟨0, 750⟩, ⟨0, 750⟩, ⟨0, 750⟩] (by decide)⟩

/-! ## C9 — startup restoration of the Qdrant backend -/

theorem QdrantStore.restore_preserves
    (fetch : String → Except String (List QdrantStore.QPoint)) :
    ∀ (colls : List String) (m : List (String × List QdrantStore.LlamaDoc))
      (c : String), c ∉ colls →
      PyDict.lookup (QdrantStore.restoreIndexesFromQdrant fetch colls m) c =
        PyDict.lookup m c := by
  intro colls
  induction colls with
  | nil => intro m c h; rfl
  | cons c0 rest ih =>
    intro m c h
    simp only [List.mem_cons, not_or] at h
    obtain ⟨hne, hrest⟩ := h
    simp only [QdrantStore.restoreIndexesFromQdrant]
    cases hr : QdrantStore.restoreSingleIndex fetch c0 with
    | ok docs =>
      rw [ih _ c hrest]
      exact PyDict.lookup_set_ne _ _ hne
    | error e =>
      exact ih _ c hrest

theorem QdrantStore.scrollLoop_ids_nodup :
    ∀ (pts : List QdrantStore.QPoint) (seen : List String),
      (((QdrantStore.scrollLoop seen pts).map (fun d => d.id)).Nodup) ∧
      (∀ d ∈ QdrantStore.scrollLoop seen pts, d.id ∉ seen) := by
  intro pts
  induction pts with
  | nil => intro seen; simp [QdrantStore.scrollLoop]
  | cons p rest ih =>
    intro seen
    cases hrid : QdrantStore.pointRefDocId p with
    | none =>
      simp only [QdrantStore.scrollLoop, hrid]
      exact ih seen
    | some rid =>
      simp only [QdrantStore.scrollLoop, hrid]
      by_cases hseen : rid ∈ seen
      · simp only [hseen, if_true]
        exact ih seen
      · simp only [hseen, if_false]
        obtain ⟨ihn, ihm⟩ := ih (rid :: seen)
        refine ⟨?_, ?_⟩
        · simp only [List.map_cons, List.nodup_cons]
          refine ⟨?_, ihn⟩
          intro hmem
          obtain ⟨d, hd, hdid⟩ := List.mem_map.mp hmem
          exact (ihm d hd) (by simp [hdid])
        · intro d hd
          rcases List.mem_cons.mp hd with rfl | hd'
          · simpa using hseen
          · intro hds
            exact (ihm d hd') (List.mem_cons_of_mem _ hds)

/-- C9: startup restoration tolerates partial failure and deduplicates by
source-document id.  (a) For every set of discovered collections and every
fallible environment, a collection whose restore succeeds ends up in the
index map under its name with exactly the documents reconstructed from its
points — regardless of any other collection's restore failing; (b) a
collection whose restore fails is skipped: if it was not in the map before,
it is not in it after, while the remaining collections are still processed
(which is (a)); and (c) the point scroll deduplicates by source-document id:
the reconstructed documents of a collection carry pairwise-distinct ids, each
id coming from the first point that mentions it. -/
theorem QdrantStore.restore_spec
    (fetch : String → Except String (List QdrantStore.QPoint)) :
    (∀ (colls : List String) (m : List (String × List QdrantStore.LlamaDoc))
       (c : String) (pts : List QdrantStore.QPoint),
       colls.Nodup → c ∈ colls → fetch c = .ok pts →
       PyDict.lookup (QdrantStore.restoreIndexesFromQdrant fetch colls m) c =
         some (QdrantStore.scrollCollectionToDocs pts)) ∧
    (∀ (colls : List String) (m : List (String × List QdrantStore.LlamaDoc))
       (c : String) (e : String),
       fetch c = .error e → PyDict.lookup m c = none →
       PyDict.lookup (QdrantStore.restoreIndexesFromQdrant fetch colls m) c =
         none) ∧
    (∀ pts : List QdrantStore.QPoint,
       ((QdrantStore.scrollCollectionToDocs pts).map (fun d => d.id)).Nodup) := by
  refine ⟨?_, ?_, ?_⟩
  · intro colls
    induction colls with
    | nil => intro m c pts _ hc; simp at hc
    | cons c0 rest ih =>
      intro m c pts hnd hc hf
      have hnd' : rest.Nodup := (List.nodup_cons.mp hnd).2
      simp only [QdrantStore.restoreIndexesFromQdrant]
      rcases List.mem_cons.mp hc with rfl | hcr
      · have hcr : c ∉ rest := (List.nodup_cons.mp hnd).1
        rw [QdrantStore.restore_preserves fetch rest _ c hcr]
        simp only [QdrantStore.restoreSingleIndex, hf]
        exact PyDict.lookup_set_self _ _ _
      · exact ih _ c pts hnd' hcr hf
  · intro colls
    induction colls with
    | nil => intro m c e _ hm; exact hm
    | cons c0 rest ih =>
      intro m c e hf hm
      simp only [QdrantStore.restoreIndexesFromQdrant]
      by_cases hc0 : c0 = c
      · subst hc0
        simp only [QdrantStore.restoreSingleIndex, hf]
        exact ih m c0 e hf hm
      · cases hr : QdrantStore.restoreSingleIndex fetch c0 with
        | ok docs =>
          refine ih _ c e hf ?_
          rw [PyDict.lookup_set_ne _ _ (fun h => hc0 h.symm)]
          exact hm
        | error e2 => exact ih m c e hf hm
  · intro pts
    exact (QdrantStore.scrollLoop_ids_nodup pts []).1

/-- Witness for `QdrantStore.restore_spec` at a concrete environment: two
collections of which the second fails to restore; the first is restored with
its two points deduplicated to one document. -/
theorem QdrantStore.restore_spec_witness :
    let fetch : String → Except String (List QdrantStore.QPoint) := fun c =>
      if c = "good" then
        .ok [⟨some "doc1", none, "hello", none⟩,
             ⟨some "doc1", none, "hello again", none⟩]
      else .error "connection refused"
    PyDict.lookup
        (QdrantStore.restoreIndexesFromQdrant fetch ["good", "bad"] []) "good" =
      some [⟨"doc1", "hello"⟩] ∧
    PyDict.lookup
        (QdrantStore.restoreIndexesFromQdrant fetch ["good", "bad"] []) "bad" =
      none ∧
    (((QdrantStore.scrollCollectionToDocs
        [⟨some "doc1", none, "hello", none⟩,
         ⟨some "doc1", none, "hello again", none⟩]).map (fun d => d.id)).Nodup) := by
  intro fetch
  refine ⟨?_, ?_, ?_⟩
  · have h := (QdrantStore.restore_spec fetch).1 ["good", "bad"] [] "good"
      [⟨some "doc1", none, "hello", none⟩,
       ⟨some "doc1", none, "hello again", none⟩]
      (by decide) (by decide) (by rfl)
    rw [h]
    decide
  · exact (QdrantStore.restore_spec fetch).2.1 ["good", "bad"] [] "bad"
      "connection refused" (by rfl) (by rfl)
  · exact (QdrantStore.restore_spec fetch).2.2
      [⟨some "doc1", none, "hello", none⟩,
       ⟨some "doc1", none, "hello again", none⟩]

/-! ## C5 — pagination over one index -/

theorem BaseStore.pages_flatten {α : Type} (P : List α) (limit : ℕ) :
    ∀ n : ℕ,
      ((List.range n).map (fun i => (P.drop (i * limit)).take limit)).flatten
        = P.take (n * limit) := by
  intro n
  induction n with
  | zero => simp
  | succ n ih =>
    rw [List.range_succ, List.map_append, List.flatten_append, ih]
    simp only [List.map_cons, List.map_nil, List.flatten_cons, List.flatten_nil,
      List.append_nil]
    rw [Nat.succ_mul, List.take_add]

theorem BaseStore.filterMap_some {α β : Type} (g : α → β) :
    ∀ l : List α, l.filterMap (fun x => some (g x)) = l.map g := by
  intro l
  induction l with
  | nil => rfl
  | cons x t ih => simp [List.filterMap_cons, ih]

theorem BaseStore.listDocumentsInIndex_int (st : BaseStore.VectorStoreState)
    (indexName : String) (ds : BaseStore.Docstore) (m limit offset : ℕ)
    (hlk : PyDict.lookup st.indexMap indexName = some ds) :
    BaseStore.listDocumentsInIndex st indexName limit offset (some m) =
      .ok (((ds.map (fun p =>
          (p.1, BaseStore.processDocumentInt m p.1 p.2))).drop offset).take
        limit) := by
  have hfm : ∀ l : BaseStore.Docstore,
      l.filterMap (fun p => (BaseStore.processDocument (some m) p.1 p.2).map
        (fun r => (p.1, r))) =
      l.map (fun p => (p.1, BaseStore.processDocumentInt m p.1 p.2)) := by
    intro l
    exact BaseStore.filterMap_some
      (fun p => (p.1, BaseStore.processDocumentInt m p.1 p.2)) l
  simp only [BaseStore.listDocumentsInIndex, hlk]
  rw [hfm, List.map_take, List.map_drop]

/-- C5 (code bug exhibit and the intended property): at the default
`max_text_length = None`, `list_documents_in_index` returns the empty page
even over a non-empty index — `is_truncated = None` makes the
`DocumentResponse` `bool` field raise, `_process_document` swallows the
error and returns `None`, and the `isinstance` filter drops every document —
contradicting the claim that the call returns the slice
`[offset, offset + limit)`.  At any integer `max_text_length` the claim's
property is exactly what the code does: each page is the
`[offset, offset + limit)` slice of the per-document formatted docstore in
stable insertion order; concatenating enough successive pages reproduces the
whole formatted list with no gap; and with unique docstore keys the
concatenation lists every doc id exactly once. -/
theorem BaseStore.pagination_spec :
    (BaseStore.listDocumentsInIndex
        ⟨[("i", [("d1", ⟨"t1", []⟩), ("d2", ⟨"t2", []⟩)])]⟩ "i" 5 0 none =
      .ok []) ∧
    (∀ (st : BaseStore.VectorStoreState) (indexName : String)
       (ds : BaseStore.Docstore) (m limit : ℕ),
       PyDict.lookup st.indexMap indexName = some ds →
       (∀ offset : ℕ,
         BaseStore.listDocumentsInIndex st indexName limit offset (some m) =
           .ok (((ds.map (fun p =>
               (p.1, BaseStore.processDocumentInt m p.1 p.2))).drop
             offset).take limit)) ∧
       (∀ n : ℕ, ds.length ≤ n * limit →
         ((List.range n).map (fun i =>
             ((ds.map (fun p =>
               (p.1, BaseStore.processDocumentInt m p.1 p.2))).drop
               (i * limit)).take limit)).flatten
           = ds.map (fun p => (p.1, BaseStore.processDocumentInt m p.1 p.2))) ∧
       (∀ n : ℕ, ds.length ≤ n * limit → (PyDict.keys ds).Nodup →
         ((((List.range n).map (fun i =>
             ((ds.map (fun p =>
               (p.1, BaseStore.processDocumentInt m p.1 p.2))).drop
               (i * limit)).take limit)).flatten).map Prod.fst).Nodup)) := by
  refine ⟨by rfl, ?_⟩
  intro st indexName ds m limit hlk
  have hP :
      ∀ n : ℕ, ds.length ≤ n * limit →
      ((List.range n).map (fun i =>
          ((ds.map (fun p =>
            (p.1, BaseStore.processDocumentInt m p.1 p.2))).drop
            (i * limit)).take limit)).flatten
        = ds.map (fun p => (p.1, BaseStore.processDocumentInt m p.1 p.2)) := by
    intro n hn
    rw [BaseStore.pages_flatten]
    refine List.take_of_length_le ?_
    simpa using hn
  refine ⟨?_, hP, ?_⟩
  · intro offset
    exact BaseStore.listDocumentsInIndex_int st indexName ds m limit offset hlk
  · intro n hn hnd
    rw [hP n hn, List.map_map]
    exact hnd

/-- Witness for `BaseStore.pagination_spec` on a two-document index with
page size 1 and `max_text_length = 100`. -/
theorem BaseStore.pagination_spec_witness :
    let ds : BaseStore.Docstore := [("d1", ⟨"t1", []⟩), ("d2", ⟨"t2", []⟩)]
    let st : BaseStore.VectorStoreState := ⟨[("i", ds)]⟩
    (BaseStore.listDocumentsInIndex st "i" 1 1 (some 100) =
      .ok (((ds.map (fun p =>
          (p.1, BaseStore.processDocumentInt 100 p.1 p.2))).drop 1).take 1)) ∧
    (((List.range 2).map (fun i =>
        ((ds.map (fun p =>
          (p.1, BaseStore.processDocumentInt 100 p.1 p.2))).drop
          (i * 1)).take 1)).flatten
      = ds.map (fun p => (p.1, BaseStore.processDocumentInt 100 p.1 p.2))) ∧
    ((((List.range 2).map (fun i =>
        ((ds.map (fun p =>
          (p.1, BaseStore.processDocumentInt 100 p.1 p.2))).drop
          (i * 1)).take 1)).flatten).map Prod.fst).Nodup := by
  intro ds st
  refine ⟨?_, ?_, ?_⟩
  · exact ((BaseStore.pagination_spec.2 st "i" ds 100 1) (by rfl)).1 1
  · exact ((BaseStore.pagination_spec.2 st "i" ds 100 1) (by rfl)).2.1 2
      (by decide)
  · exact ((BaseStore.pagination_spec.2 st "i" ds 100 1) (by rfl)).2.2 2
      (by decide) (by decide)

/-! ## C3 — content-hash doc ids and idempotent indexing -/

theorem PyDict.lookup_mem {β : Type} :
    ∀ {m : List (String × β)} {k : String} {v : β},
      PyDict.lookup m k = some v → (k, v) ∈ m := by
  intro m
  induction m with
  | nil => intro k v h; simp [PyDict.lookup_nil] at h
  | cons p t ih =>
    intro k v h
    rw [PyDict.lookup_cons] at h
    by_cases hp : p.1 = k
    · rw [if_pos hp] at h
      simp only [Option.some.injEq] at h
      cases p with
      | mk a b =>
        simp only at hp h
        subst hp
        subst h
        exact List.mem_cons_self _ _
    · rw [if_neg hp] at h
      exact List.mem_cons_of_mem _ (ih h)

theorem BaseStore.first_index_state (st : BaseStore.VectorStoreState)
    (name t : String) (m1 : List (String × String))
    (hwf : BaseStore.WFState st) :
    ∃ ds1 : BaseStore.Docstore,
      PyDict.lookup
          (BaseStore.indexDocuments st name [⟨t, m1⟩]).2.indexMap name =
        some ds1 ∧
      (∃ v, PyDict.lookup ds1 (BaseStore.generate_doc_id t) = some v) ∧
      (PyDict.keys ds1).count (BaseStore.generate_doc_id t) = 1 ∧
      (PyDict.keys (BaseStore.indexDocuments st name [⟨t, m1⟩]).2.indexMap).Nodup := by
  obtain ⟨hwf1, hwf2⟩ := hwf
  cases h0 : PyDict.lookup st.indexMap name with
  | none =>
    -- create path: a fresh one-document docstore appended to the index map
    refine ⟨[(BaseStore.generate_doc_id t, ⟨t, m1⟩)], ?_, ⟨⟨t, m1⟩, ?_⟩, ?_, ?_⟩
    · simp only [BaseStore.indexDocuments, h0, BaseStore.createDocstore,
        List.foldl_cons, List.foldl_nil]
      simp only [List.not_mem_nil, if_false, reduceCtorEq]
      exact PyDict.lookup_append_self _ h0
    · simp [PyDict.lookup_cons]
    · simp [PyDict.keys]
    · simp only [BaseStore.indexDocuments, h0, BaseStore.createDocstore,
        List.foldl_cons, List.foldl_nil]
      simp only [reduceCtorEq, if_false]
      rw [PyDict.keys_append]
      rw [List.nodup_append]
      refine ⟨hwf1, List.nodup_singleton _, ?_⟩
      intro a ha hb
      simp only [List.mem_singleton] at hb
      rw [hb] at ha
      exact (PyDict.lookup_eq_none_iff st.indexMap name).mp h0 ha
  | some ds0 =>
    -- append path
    have hmem0 : (name, ds0) ∈ st.indexMap := PyDict.lookup_mem h0
    have hnd0 : (PyDict.keys ds0).Nodup := hwf2 _ hmem0
    cases hg : PyDict.lookup ds0 (BaseStore.generate_doc_id t) with
    | none =>
      refine ⟨ds0 ++ [(BaseStore.generate_doc_id t, ⟨t, m1⟩)], ?_, ⟨⟨t, m1⟩, ?_⟩,
        ?_, ?_⟩
      · simp only [BaseStore.indexDocuments, h0,
          BaseStore.appendDocumentsToDocstore, List.foldl_cons, List.foldl_nil,
          hg]
        exact PyDict.lookup_set_self _ _ _
      · exact PyDict.lookup_append_self _ hg
      · rw [PyDict.keys_append, List.count_append]
        have hz : (PyDict.keys ds0).count (BaseStore.generate_doc_id t) = 0 :=
          List.count_eq_zero.mpr
            ((PyDict.lookup_eq_none_iff ds0 _).mp hg)
        simp [hz]
      · simp only [BaseStore.indexDocuments, h0,
          BaseStore.appendDocumentsToDocstore, List.foldl_cons, List.foldl_nil,
          hg]
        rw [PyDict.keys_set _ _ _ (PyDict.mem_keys_of_lookup h0)]
        exact hwf1
    | some v0 =>
      refine ⟨ds0, ?_, ⟨v0, hg⟩, ?_, ?_⟩
      · simp only [BaseStore.indexDocuments, h0,
          BaseStore.appendDocumentsToDocstore, List.foldl_cons, List.foldl_nil,
          hg]
        rw [PyDict.set_eq_self hwf1 h0]
        exact h0
      · exact List.count_eq_one_of_mem hnd0 (PyDict.mem_keys_of_lookup hg)
      · simp only [BaseStore.indexDocuments, h0,
          BaseStore.appendDocumentsToDocstore, List.foldl_cons, List.foldl_nil,
          hg]
        rw [PyDict.set_eq_self hwf1 h0]
        exact hwf1

/-- C3: the doc id is the SHA-256 of the document text alone, so identical
texts get identical ids regardless of metadata; and indexing is idempotent
per content hash: after indexing text `t` into an index, indexing `t` again —
same or different metadata — reports zero newly indexed ids, leaves the store
unchanged, and the index holds exactly one stored document under `t`'s id. -/
theorem BaseStore.index_idempotent :
    (∀ d1 d2 : BaseStore.Document, d1.text = d2.text →
      BaseStore.generate_doc_id d1.text = BaseStore.generate_doc_id d2.text) ∧
    (∀ (st : BaseStore.VectorStoreState) (name t : String)
       (m1 m2 : List (String × String)), BaseStore.WFState st →
      (BaseStore.indexDocuments
          (BaseStore.indexDocuments st name [⟨t, m1⟩]).2 name [⟨t, m2⟩]).1 =
        [] ∧
      (BaseStore.indexDocuments
          (BaseStore.indexDocuments st name [⟨t, m1⟩]).2 name [⟨t, m2⟩]).2 =
        (BaseStore.indexDocuments st name [⟨t, m1⟩]).2 ∧
      (PyDict.keys ((PyDict.lookup
          (BaseStore.indexDocuments st name [⟨t, m1⟩]).2.indexMap
          name).getD [])).count (BaseStore.generate_doc_id t) = 1) := by
  constructor
  · intro d1 d2 h
    rw [h]
  · intro st name t m1 m2 hwf
    obtain ⟨ds1, hlk, ⟨v, hv⟩, hcount, hnd⟩ :=
      BaseStore.first_index_state st name t m1 hwf
    set st1 := (BaseStore.indexDocuments st name [⟨t, m1⟩]).2 with hst1
    have key : BaseStore.indexDocuments st1 name [⟨t, m2⟩] =
        ([], ⟨PyDict.set st1.indexMap name ds1⟩) := by
      simp only [BaseStore.indexDocuments, hlk,
        BaseStore.appendDocumentsToDocstore, List.foldl_cons, List.foldl_nil,
        hv]
    refine ⟨?_, ?_, ?_⟩
    · rw [key]
    · rw [key]
      show (⟨PyDict.set st1.indexMap name ds1⟩ : BaseStore.VectorStoreState)
        = st1
      rw [PyDict.set_eq_self hnd hlk]
    · rw [hlk]
      simpa using hcount

/-- Witness for `BaseStore.index_idempotent` starting from the empty store. -/
theorem BaseStore.index_idempotent_witness :
    (BaseStore.indexDocuments
        (BaseStore.indexDocuments ⟨[]⟩ "i" [⟨"doc", []⟩]).2 "i"
        [⟨"doc", [("a", "b")]⟩]).1 = [] ∧
    (BaseStore.indexDocuments
        (BaseStore.indexDocuments ⟨[]⟩ "i" [⟨"doc", []⟩]).2 "i"
        [⟨"doc", [("a", "b")]⟩]).2 =
      (BaseStore.indexDocuments ⟨[]⟩ "i" [⟨"doc", []⟩]).2 ∧
    (PyDict.keys ((PyDict.lookup
        (BaseStore.indexDocuments ⟨[]⟩ "i" [⟨"doc", []⟩]).2.indexMap
        "i").getD [])).count (BaseStore.generate_doc_id "doc") = 1 :=
  BaseStore.index_idempotent.2 ⟨[]⟩ "i" "doc" [] [("a", "b")]
    ⟨by simp [PyDict.keys], by simp⟩

/-! ## C1 — hybrid fusion scoring -/

theorem PyDict.lookup_reverse {β : Type} :
    ∀ (m : List (String × β)), (PyDict.keys m).Nodup →
      ∀ k, PyDict.lookup m.reverse k = PyDict.lookup m k := by
  intro m
  induction m with
  | nil => intro _ k; rfl
  | cons p t ih =>
    intro hnd k
    have hcons : (p.1 :: PyDict.keys t).Nodup := by
      simpa [PyDict.keys] using hnd
    have hk : p.1 ∉ PyDict.keys t := (List.nodup_cons.mp hcons).1
    have hndt : (PyDict.keys t).Nodup := (List.nodup_cons.mp hcons).2
    rw [List.reverse_cons, PyDict.lookup_cons]
    by_cases hp : p.1 = k
    · rw [if_pos hp]
      have hnone : PyDict.lookup t.reverse k = none := by
        rw [ih hndt k, PyDict.lookup_eq_none_iff]
        rw [← hp]
        exact hk
      cases p with
      | mk a b =>
        simp only at hp
        subst hp
        exact PyDict.lookup_append_self _ hnone
    · rw [if_neg hp]
      cases p with
      | mk a b =>
        simp only at hp
        rw [PyDict.lookup_append_ne b (fun h => hp h.symm)]
        exact ih hndt k

theorem HybridRetriever.lookup_map_getD (l : List (String × Option ℚ))
    (k : String) :
    PyDict.lookup (l.map (fun n => (n.1, n.2.getD 0))) k =
      (l.find? (fun n => n.1 = k)).map (fun n => n.2.getD 0) := by
  induction l with
  | nil => rfl
  | cons n t ih =>
    simp only [List.map_cons]
    rw [PyDict.lookup_cons]
    by_cases hp : n.1 = k
    · simp [List.find?_cons_of_pos, hp]
    · rw [if_neg hp, List.find?_cons_of_neg _ (by simpa using hp)]
      exact ih

theorem HybridRetriever.vectorScore_eq (vectorNodes : List (String × Option ℚ))
    (hvn : (vectorNodes.map Prod.fst).Nodup) (nodeId : String) :
    HybridRetriever.vectorScore vectorNodes nodeId =
      match vectorNodes.find? (fun q => q.1 = nodeId) with
      | some q => q.2.getD 0
      | none => 0 := by
  unfold HybridRetriever.vectorScore HybridRetriever.vectorScores
  rw [show vectorNodes.reverse.map (fun n => (n.1, n.2.getD 0)) =
      (vectorNodes.map (fun n => (n.1, n.2.getD 0))).reverse from
    (List.map_reverse _ _)]
  have hkeys : (PyDict.keys
      (vectorNodes.map (fun n => (n.1, n.2.getD 0)))).Nodup := by
    unfold PyDict.keys
    rw [List.map_map]
    exact hvn
  rw [PyDict.lookup_reverse _ hkeys nodeId,
    HybridRetriever.lookup_map_getD vectorNodes nodeId]
  cases vectorNodes.find? (fun q => q.1 = nodeId) with
  | none => rfl
  | some q => rfl

theorem HybridRetriever.enumFrom_reverse_find (nodeId : String) :
    ∀ (ks : List String), ks.Nodup → ∀ n : ℕ,
      ((ks.enumFrom n).reverse.find? (fun p => p.2 = nodeId)) =
        if nodeId ∈ ks then some (n + ks.indexOf nodeId, nodeId) else none := by
  intro ks
  induction ks with
  | nil => intro _ n; simp [List.enumFrom]
  | cons k rest ih =>
    intro hnd n
    obtain ⟨hk, hnd'⟩ := List.nodup_cons.mp hnd
    simp only [List.enumFrom, List.reverse_cons]
    rw [List.find?_append, ih hnd' (n + 1)]
    by_cases hmem : nodeId ∈ rest
    · have hkne : k ≠ nodeId := fun h => hk (h ▸ hmem)
      rw [if_pos hmem]
      simp only [Option.or]
      rw [if_pos (List.mem_cons_of_mem _ hmem)]
      have hidx : (k :: rest).indexOf nodeId = rest.indexOf nodeId + 1 := by
        simp only [List.indexOf_cons]
        have : (k == nodeId) = false := beq_eq_false_iff_ne.mpr hkne
        simp [this]
      rw [hidx,
        show n + (rest.indexOf nodeId + 1) = n + 1 + rest.indexOf nodeId from by
          omega]
    · rw [if_neg hmem]
      simp only [Option.or]
      by_cases hkid : k = nodeId
      · subst hkid
        rw [if_pos (List.mem_cons_self _ _)]
        rw [List.indexOf_cons_self]
        simp [List.find?_cons]
      · rw [if_neg (by
          simp only [List.mem_cons, not_or]
          exact ⟨fun h => hkid h.symm, hmem⟩)]
        simp only [List.find?_cons]
        have : (decide ((n, k).2 = nodeId)) = false := by
          simpa using hkid
        simp [this]

theorem HybridRetriever.keywordRank_nodup (ks : List String) (hnd : ks.Nodup)
    (nodeId : String) :
    HybridRetriever.keywordRank ks nodeId =
      if nodeId ∈ ks then some (ks.indexOf nodeId) else none := by
  unfold HybridRetriever.keywordRank
  rw [show ks.enum = ks.enumFrom 0 from rfl,
    HybridRetriever.enumFrom_reverse_find nodeId ks hnd 0]
  by_cases hmem : nodeId ∈ ks
  · simp [hmem]
  · simp [hmem]

theorem HybridRetriever.textScore_nodup (ks : List String) (hnd : ks.Nodup)
    (nodeId : String) :
    HybridRetriever.textScore ks nodeId =
      if nodeId ∈ ks then 1 / (1 + (ks.indexOf nodeId : ℚ)) else 0 := by
  unfold HybridRetriever.textScore
  rw [HybridRetriever.keywordRank_nodup ks hnd nodeId]
  by_cases hmem : nodeId ∈ ks
  · simp only [hmem, if_true]
    have hmax : max (0 : ℚ) ((ks.indexOf nodeId : ℕ) : ℚ) =
        ((ks.indexOf nodeId : ℕ) : ℚ) := max_eq_right (by positivity)
    rw [hmax]
  · simp [hmem]

/-- C1: for every query (i.e. every pair of retrieval-pass results), the
hybrid retriever (a) normalizes the two weights to sum to 1; (b) scores every
unique node returned by either pass, returning `min(max_results, #unique)`
results; (c) scores each returned node as `vector_weight * vector_score +
text_weight * text_score` with normalized weights, where `vector_score` is
the raw similarity of the node in the vector pass (0.0 when absent, `None`
collapsing to 0.0) and `text_score = 1 / (1 + keyword_rank)` with
`keyword_rank` the node's 0-based position in the keyword pass's list (0.0
when absent); (d) returns the nodes sorted descending by final score; and
(e) truncates to the top `max_results`: any unique node left out scores no
more than every returned node. -/
theorem HybridRetriever.retrieve_spec (vw tw : ℚ) (maxResults : ℕ)
    (vectorNodes : List (String × Option ℚ)) (keywordNodes : List String)
    (hw : 0 < vw + tw) (hvn : (vectorNodes.map Prod.fst).Nodup)
    (hkn : keywordNodes.Nodup) :
    vw / (vw + tw) + tw / (vw + tw) = 1 ∧
    (HybridRetriever.retrieve vw tw maxResults vectorNodes keywordNodes).length
      = min maxResults
        (HybridRetriever.allNodeIds vectorNodes keywordNodes).length ∧
    (∀ p ∈ HybridRetriever.retrieve vw tw maxResults vectorNodes keywordNodes,
      p.1 ∈ HybridRetriever.allNodeIds vectorNodes keywordNodes ∧
      p.2 = (vw / (vw + tw)) *
          (match vectorNodes.find? (fun q => q.1 = p.1) with
           | some q => q.2.getD 0
           | none => 0)
        + (tw / (vw + tw)) *
          (if p.1 ∈ keywordNodes
           then 1 / (1 + (keywordNodes.indexOf p.1 : ℚ))
           else 0)) ∧
    (HybridRetriever.retrieve vw tw maxResults vectorNodes keywordNodes).Sorted
      (fun a b => b.2 ≤ a.2) ∧
    (∀ p ∈ HybridRetriever.retrieve vw tw maxResults vectorNodes keywordNodes,
     ∀ nodeId ∈ HybridRetriever.allNodeIds vectorNodes keywordNodes,
       nodeId ∉ (HybridRetriever.retrieve vw tw maxResults vectorNodes
         keywordNodes).map Prod.fst →
       HybridRetriever.finalScore vw tw vectorNodes keywordNodes nodeId
         ≤ p.2) := by
  have hwne : vw + tw ≠ 0 := ne_of_gt hw
  letI : IsTotal (String × ℚ) (fun a b => b.2 ≤ a.2) :=
    ⟨fun a b => le_total b.2 a.2⟩
  letI : IsTrans (String × ℚ) (fun a b => b.2 ≤ a.2) :=
    ⟨fun _ _ _ hab hbc => le_trans hbc hab⟩
  have hret : HybridRetriever.retrieve vw tw maxResults vectorNodes keywordNodes
      = (((HybridRetriever.allNodeIds vectorNodes keywordNodes).map
          (fun nodeId => (nodeId, HybridRetriever.finalScore vw tw vectorNodes
            keywordNodes nodeId))).insertionSort
          (fun a b => b.2 ≤ a.2)).take maxResults := rfl
  have hfs : ∀ nodeId,
      HybridRetriever.finalScore vw tw vectorNodes keywordNodes nodeId =
        (vw / (vw + tw)) * HybridRetriever.vectorScore vectorNodes nodeId
          + (tw / (vw + tw)) * HybridRetriever.textScore keywordNodes nodeId :=
    fun _ => rfl
  refine ⟨?_, ?_, ?_, ?_, ?_⟩
  · rw [div_add_div_same, div_self hwne]
  · rw [hret, List.length_take, List.length_insertionSort, List.length_map]
  · intro p hp
    rw [hret] at hp
    have hp2 := List.take_subset _ _ hp
    have hp3 := (List.perm_insertionSort
      (fun a b : String × ℚ => b.2 ≤ a.2) _).mem_iff.mp hp2
    obtain ⟨nodeId, hid, heq⟩ := List.mem_map.mp hp3
    subst heq
    refine ⟨hid, ?_⟩
    show HybridRetriever.finalScore vw tw vectorNodes keywordNodes nodeId = _
    rw [hfs nodeId, HybridRetriever.vectorScore_eq vectorNodes hvn nodeId,
      HybridRetriever.textScore_nodup keywordNodes hkn nodeId]
  · rw [hret]
    exact List.Pairwise.sublist (List.take_sublist _ _)
      (List.sorted_insertionSort _ _)
  · intro p hp nodeId hid hnotin
    rw [hret] at hp hnotin
    have hmem : (nodeId,
        HybridRetriever.finalScore vw tw vectorNodes keywordNodes nodeId) ∈
        ((HybridRetriever.allNodeIds vectorNodes keywordNodes).map
          (fun nodeId => (nodeId, HybridRetriever.finalScore vw tw vectorNodes
            keywordNodes nodeId))).insertionSort (fun a b => b.2 ≤ a.2) := by
      rw [(List.perm_insertionSort _ _).mem_iff]
      exact List.mem_map_of_mem _ hid
    have hpair : (((HybridRetriever.allNodeIds vectorNodes keywordNodes).map
        (fun nodeId => (nodeId, HybridRetriever.finalScore vw tw vectorNodes
          keywordNodes nodeId))).insertionSort
        (fun a b => b.2 ≤ a.2)).Pairwise (fun a b => b.2 ≤ a.2) :=
      List.sorted_insertionSort _ _
    rw [← List.take_append_drop maxResults
      (((HybridRetriever.allNodeIds vectorNodes keywordNodes).map
        (fun nodeId => (nodeId, HybridRetriever.finalScore vw tw vectorNodes
          keywordNodes nodeId))).insertionSort (fun a b => b.2 ≤ a.2))]
      at hpair hmem
    obtain ⟨-, -, hcross⟩ := List.pairwise_append.mp hpair
    rcases List.mem_append.mp hmem with hin | hin
    · exact absurd (List.mem_map_of_mem Prod.fst hin) hnotin
    · exact hcross p hp _ hin

/-- Witness for `HybridRetriever.retrieve_spec` on the spec's fusion example:
vector pass `A ↦ 0.9, B ↦ 0.4`, keyword pass ranking `A` first, weights
`0.7 / 0.3`; the fused scores are `A ↦ 0.93, B ↦ 0.28` and `A` ranks first. -/
theorem HybridRetriever.retrieve_spec_witness :
    (0.7 : ℚ) / (0.7 + 0.3) + 0.3 / (0.7 + 0.3) = 1 ∧
    (HybridRetriever.retrieve 0.7 0.3 10
        [("A", some 0.9), ("B", some 0.4)] ["A"]).length =
      min 10 (HybridRetriever.allNodeIds
        [("A", some 0.9), ("B", some 0.4)] ["A"]).length ∧
    (HybridRetriever.retrieve 0.7 0.3 10
        [("A", some 0.9), ("B", some 0.4)] ["A"]).Sorted
      (fun a b => b.2 ≤ a.2) ∧
    HybridRetriever.retrieve 0.7 0.3 10
        [("A", some 0.9), ("B", some 0.4)] ["A"] =
      [("A", 0.93), ("B", 0.28)] := by
  have h := HybridRetriever.retrieve_spec 0.7 0.3 10
    [("A", some 0.9), ("B", some 0.4)] ["A"] (by norm_num) (by decide)
    (by decide)
  refine ⟨h.1, h.2.1, h.2.2.2.1, ?_⟩
  simp only [HybridRetriever.retrieve, HybridRetriever.allNodeIds,
    HybridRetriever.finalScore, HybridRetriever.vectorScore,
    HybridRetriever.vectorScores, HybridRetriever.textScore,
    HybridRetriever.keywordRank, PyDict.lookup, List.map, List.dedup,
    List.enum, List.enumFrom, List.reverse, List.find?, List.insertionSort,
    List.orderedInsert, List.take,
    show decide ("B" = "A") = false from rfl,
    show decide ("A" = "B") = false from rfl, Option.map, Option.getD]
  norm_num

/-- Witness for `BaseStore.listAll_equal_share` on a two-index store with
limit 4. -/
theorem BaseStore.listAll_equal_share_witness :
    let st : BaseStore.VectorStoreState :=
      ⟨[("a", [("d1", ⟨"t1", []⟩), ("d2", ⟨"t2", []⟩), ("d3", ⟨"t3", []⟩)]),
        ("b", [("d4", ⟨"t4", []⟩)])]⟩
    ([(⟨"d1", "t1", [], false⟩ : BaseStore.DocumentResponse),
        ⟨"d2", "t2", [], false⟩].length ≤
      4 / (PyDict.keys st.indexMap).length + 1) ∧
    ((BaseStore.listAllDocuments st 4 0 (some 100)).map
        (fun p => p.2.length)).sum ≤ 4 := by
  intro st
  exact ⟨(BaseStore.listAll_equal_share st 4 0 (some 100)).1 "a"
      [⟨"d1", "t1", [], false⟩, ⟨"d2", "t2", [], false⟩] (by decide),
    (BaseStore.listAll_equal_share st 4 0 (some 100)).2⟩
